import Mathlib

/-!
Shallow embedding of the Surround pipeline orchestrator
(src/surround/assembler.py) and proofs about its run state machine.

Modelling conventions:
- The data carrier (surround.State) is a record with the orchestration
  fields the assembler reads and writes (errors, stage_metadata,
  execution_time, the frozen flag) plus an abstract numeric payload.
- Each stage (validator, filter, estimator, visualiser) is an arbitrary
  function from carrier to carrier paired with a Bool that is true when
  the Python call raises an exception; mutations made before the raise
  persist, exactly as in-place mutation does in Python.
- Wall-clock durations are abstracted by the constant durationStr, since
  no verified property depends on the measured value, only on which
  records are appended and in what order.
- Every orchestrator-initiated stage invocation appends a ghost Event to
  a trace; the trace is used to express which stages executed and when.
  The Event.opEv constructor additionally records the frozen flag of the
  carrier at the moment the filter was invoked.
-/

namespace Surround

/-- The data carrier (surround.State): user payload plus orchestration
metadata and the freeze/thaw flag. -/
structure State where
  data : Nat
  errors : List String
  stage_metadata : List (String × String)
  execution_time : Option String
  frozen : Bool
deriving DecidableEq, Repr

/-- state.freeze() -/
def State.freeze (s : State) : State := { s with frozen := true }

/-- state.thaw() -/
def State.thaw (s : State) : State := { s with frozen := false }

/-- Abstract stand-in for a measured str(timedelta) value. -/
def durationStr : String := "0:00:00"

/-- Ghost events marking each stage invocation performed by the
orchestrator, in execution order. doneEv marks the point where the
orchestrator appends the stage-metadata record for a completed stage. -/
inductive Event where
  | validateEv : Event
  | opEv (name : String) (frozenAtCall : Bool) : Event
  | dumpEv (name : String) : Event
  | doneEv (name : String) : Event
  | estimateEv (name : String) : Event
  | fitEv (name : String) : Event
  | visualiseEv : Event
  | finalEv (name : String) : Event
deriving DecidableEq, Repr

/-- A stage call: resulting carrier and whether the call raised. -/
abbrev StageFun := State → State × Bool

/-- A Filter stage: operate plus optional dump_output; name models
type(stage).__name__. -/
structure FilterB where
  name : String
  operate : StageFun
  dump_output : StageFun

/-- An Estimator stage: estimate, fit and dump_output. -/
structure EstimatorB where
  name : String
  estimate : StageFun
  fit : StageFun
  dump_output : StageFun

/-- A Validator stage. -/
structure ValidatorB where
  validate : StageFun

/-- A Visualiser stage. -/
structure VisualiserB where
  visualise : StageFun

/-- The Assembler composition as it stands when run is invoked.
configSome models truthiness of self.config; dumpFlag models
config["surround"]["enable_stage_output_dump"]. pre/post filter lists
model self.pre_filters / self.post_filters, where the Python guard
`if self.pre_filters:` is false exactly for None and the empty list,
both modelled by []. -/
structure Assembler where
  validator : ValidatorB
  estimator : EstimatorB
  pre_filters : List FilterB
  post_filters : List FilterB
  visualiser : Option VisualiserB
  finaliser : Option FilterB
  batch_mode : Bool
  configSome : Bool
  dumpFlag : Bool

/-- The guard `self.config and self.config["surround"]["enable_stage_output_dump"]`. -/
def Assembler.dumpOn (a : Assembler) : Bool := a.configSome && a.dumpFlag

/-- Result of executing a piece of the pipeline: final carrier, ghost
trace of the invocations performed, and whether an exception is
propagating out of this piece. -/
structure Res where
  st : State
  tr : List Event
  raised : Bool
deriving DecidableEq, Repr

/-- Assembler.__execute_filter: invoke operate, then dump_output when the
dump flag is enabled, then append the {stage-name: duration} record to
stage_metadata. A raise in operate or dump_output propagates and skips
the metadata append. -/
def execute_filter (d : Bool) (f : FilterB) (s : State) : Res :=
  let r1 := f.operate s
  let ev0 := Event.opEv f.name s.frozen
  if r1.2 then ⟨r1.1, [ev0], true⟩
  else
    let r2 := if d then f.dump_output r1.1 else (r1.1, false)
    let tr2 := if d then [ev0, Event.dumpEv f.name] else [ev0]
    if r2.2 then ⟨r2.1, tr2, true⟩
    else ⟨{ r2.1 with stage_metadata := r2.1.stage_metadata ++ [(f.name, durationStr)] },
          tr2 ++ [Event.doneEv f.name], false⟩

/-- The for-loop inside Assembler.__execute_filters: run each filter in
order; after each one, if state.errors is non-empty, log and break; a
raise propagates out of the loop (to the batch except clause). -/
def filterLoop (d : Bool) : List FilterB → State → Res
  | [], s => ⟨s, [], false⟩
  | f :: fs, s =>
    let r := execute_filter d f s
    if r.raised then r
    else if r.st.errors.isEmpty then
      let r2 := filterLoop d fs r.st
      ⟨r2.st, r.tr ++ r2.tr, r2.raised⟩
    else ⟨r.st, r.tr, false⟩

/-- Assembler.__execute_filters: freeze the carrier, run the loop inside
a try block that also records execution_time on normal exit, swallow any
exception, and thaw the carrier after the try block. The batch never
propagates an exception. -/
def execute_filters (d : Bool) (fs : List FilterB) (s : State) : Res :=
  let r := filterLoop d fs s.freeze
  let s1 := if r.raised then r.st else { r.st with execution_time := some durationStr }
  ⟨s1.thaw, r.tr, false⟩

/-- Assembler.__execute_main: invoke estimate, dump when enabled, append
the metadata record; a raise propagates and skips the append. -/
def execute_main (d : Bool) (e : EstimatorB) (s : State) : Res :=
  let r1 := e.estimate s
  let ev0 := Event.estimateEv e.name
  if r1.2 then ⟨r1.1, [ev0], true⟩
  else
    let r2 := if d then e.dump_output r1.1 else (r1.1, false)
    let tr2 := if d then [ev0, Event.dumpEv e.name] else [ev0]
    if r2.2 then ⟨r2.1, tr2, true⟩
    else ⟨{ r2.1 with stage_metadata := r2.1.stage_metadata ++ [(e.name, durationStr)] },
          tr2 ++ [Event.doneEv e.name], false⟩

/-- Assembler.__execute_fit: same as __execute_main with fit. -/
def execute_fit (d : Bool) (e : EstimatorB) (s : State) : Res :=
  let r1 := e.fit s
  let ev0 := Event.fitEv e.name
  if r1.2 then ⟨r1.1, [ev0], true⟩
  else
    let r2 := if d then e.dump_output r1.1 else (r1.1, false)
    let tr2 := if d then [ev0, Event.dumpEv e.name] else [ev0]
    if r2.2 then ⟨r2.1, tr2, true⟩
    else ⟨{ r2.1 with stage_metadata := r2.1.stage_metadata ++ [(e.name, durationStr)] },
          tr2 ++ [Event.doneEv e.name], false⟩

/-- The step `if self.pre_filters: self.__execute_filters(self.pre_filters, ...)`. -/
def preRes (a : Assembler) (s : State) : Res :=
  if a.pre_filters.isEmpty then ⟨s, [], false⟩
  else execute_filters a.dumpOn a.pre_filters s

/-- The step `if is_training: self.__execute_fit(...) else: self.__execute_main(...)`. -/
def estRes (a : Assembler) (is_training : Bool) (s : State) : Res :=
  if is_training then execute_fit a.dumpOn a.estimator s
  else execute_main a.dumpOn a.estimator s

/-- The step `if self.post_filters: self.__execute_filters(self.post_filters, ...)`. -/
def postRes (a : Assembler) (s : State) : Res :=
  if a.post_filters.isEmpty then ⟨s, [], false⟩
  else execute_filters a.dumpOn a.post_filters s

/-- The step `if (is_training or self.batch_mode) and self.visualiser: ...visualise(...)`. -/
def visRes (a : Assembler) (is_training : Bool) (s : State) : Res :=
  if is_training || a.batch_mode then
    match a.visualiser with
    | some v =>
      let p := v.visualise s
      ⟨p.1, [Event.visualiseEv], p.2⟩
    | none => ⟨s, [], false⟩
  else ⟨s, [], false⟩

/-- Assembler.__run_pipeline: pre-filter batch (when the list is
non-empty), then estimate or fit depending on is_training, then the
post-filter batch, then the visualiser when (is_training or batch_mode)
and a visualiser is set. An estimator or visualiser raise propagates to
the run boundary; filter batches never raise. -/
def run_pipeline (a : Assembler) (is_training : Bool) (s : State) : Res :=
  let r1 := preRes a s
  let r2 := estRes a is_training r1.st
  if r2.raised then ⟨r2.st, r1.tr ++ r2.tr, true⟩
  else
    let r3 := postRes a r2.st
    let r4 := visRes a is_training r3.st
    ⟨r4.st, r1.tr ++ r2.tr ++ r3.tr ++ r4.tr, r4.raised⟩

/-- The body of Assembler.run after the null-carrier check: try
validate-then-pipeline, except swallow, finally invoke the finaliser
when set. The finally block is not guarded, so a raise inside the
finaliser operate propagates to the caller of run. -/
def runBody (a : Assembler) (is_training : Bool) (st : State) : Res :=
  let rv := a.validator.validate st
  let afterTry : State × List Event :=
    if rv.2 then (rv.1, [Event.validateEv])
    else
      let rp := run_pipeline a is_training rv.1
      (rp.st, Event.validateEv :: rp.tr)
  match a.finaliser with
  | some f =>
    let rf := f.operate afterTry.1
    ⟨rf.1, afterTry.2 ++ [Event.finalEv f.name], rf.2⟩
  | none => ⟨afterTry.1, afterTry.2, false⟩

/-- Assembler.run: a missing (null) carrier raises the precondition
ValueError before any stage executes; otherwise the body runs. -/
def run (a : Assembler) (state : Option State) (is_training : Bool) :
    Except String Res :=
  match state with
  | none => Except.error "state is required to run an assembler"
  | some st => Except.ok (runBody a is_training st)

/-- True when an exception escapes the run call: either the precondition
ValueError or an exception propagating out of the body. -/
def escapes : Except String Res → Bool
  | Except.error _ => true
  | Except.ok r => r.raised

/-- A Python argument value as the setter guards observe it: its
truthiness and which stage contracts it satisfies. A null (None)
argument is falsy and satisfies no contract. -/
structure PyArg where
  truthy : Bool
  isVisualiserInst : Bool
  isFilterInst : Bool
deriving DecidableEq, Repr

/-- The null argument (None). -/
def nullArg : PyArg := ⟨false, false, false⟩

/-- Assembler.set_visualiser: the guard is
`if not visualiser and not isinstance(visualiser, Visualiser)`. -/
def set_visualiser (v : PyArg) : Except String PyArg :=
  if !v.truthy && !v.isVisualiserInst then
    Except.error "visualiser should be of class Visualiser"
  else Except.ok v

/-- Assembler.set_finaliser: the guard is
`if not finaliser and not isinstance(finaliser, Filter)`. -/
def set_finaliser (f : PyArg) : Except String PyArg :=
  if !f.truthy && !f.isFilterInst then
    Except.error "finaliser should be of class Filter"
  else Except.ok f

/-- Whether a setter call returned normally. -/
def acceptedArg : Except String PyArg → Bool
  | Except.ok _ => true
  | Except.error _ => false

/-! ## Trace observations -/

/-- Event is a finaliser invocation. -/
def isFinalEv : Event → Bool
  | Event.finalEv _ => true
  | _ => false

/-- Event is an estimate invocation. -/
def isEstimateEv : Event → Bool
  | Event.estimateEv _ => true
  | _ => false

/-- Event is a fit invocation. -/
def isFitEv : Event → Bool
  | Event.fitEv _ => true
  | _ => false

/-- Event is a visualise invocation. -/
def isVisEv : Event → Bool
  | Event.visualiseEv => true
  | _ => false

/-- Events that a filter batch can emit. -/
def isBatchEv : Event → Bool
  | Event.opEv _ _ => true
  | Event.dumpEv _ => true
  | Event.doneEv _ => true
  | _ => false

/-- Events that the pipeline body (between validate and finalise) can emit. -/
def isPipeEv : Event → Bool
  | Event.validateEv => false
  | Event.finalEv _ => false
  | _ => true

/-- Number of finaliser invocations in a trace. -/
def countFinal (tr : List Event) : Nat := tr.countP isFinalEv

/-- Number of estimate invocations in a trace. -/
def countEstimate (tr : List Event) : Nat := tr.countP isEstimateEv

/-- Number of fit invocations in a trace. -/
def countFit (tr : List Event) : Nat := tr.countP isFitEv

/-- Number of visualise invocations in a trace. -/
def countVis (tr : List Event) : Nat := tr.countP isVisEv

/-- The stage-metadata records whose append points appear in a trace, in
order. -/
def doneRecords (tr : List Event) : List (String × String) :=
  tr.filterMap (fun e => match e with
    | Event.doneEv n => some (n, durationStr)
    | _ => none)

/-! ## Behavioural hypotheses on stages -/

/-- A filter whose operate and dump_output never raise. -/
def FilterB.noRaise (f : FilterB) : Prop :=
  ∀ s, (f.operate s).2 = false ∧ (f.dump_output s).2 = false

/-- An estimator none of whose operations raise. -/
def EstimatorB.noRaise (e : EstimatorB) : Prop :=
  ∀ s, (e.estimate s).2 = false ∧ (e.fit s).2 = false ∧ (e.dump_output s).2 = false

/-- A stage call that leaves stage_metadata untouched (user code does not
forge orchestration metadata). -/
def preservesMeta (g : StageFun) : Prop :=
  ∀ s, ((g s).1).stage_metadata = s.stage_metadata

/-- A stage call that leaves the execution_time field untouched. -/
def preservesTime (g : StageFun) : Prop :=
  ∀ s, ((g s).1).execution_time = s.execution_time

/-- A filter whose calls do not forge stage_metadata. -/
def FilterB.metaOK (f : FilterB) : Prop :=
  preservesMeta f.operate ∧ preservesMeta f.dump_output

/-- An estimator whose calls do not forge stage_metadata. -/
def EstimatorB.metaOK (e : EstimatorB) : Prop :=
  preservesMeta e.estimate ∧ preservesMeta e.fit ∧ preservesMeta e.dump_output

/-- A filter whose calls do not write the execution_time field. -/
def FilterB.timeOK (f : FilterB) : Prop :=
  preservesTime f.operate ∧ preservesTime f.dump_output

/-- All stages of a composition leave stage_metadata to the orchestrator. -/
def Assembler.metaOK (a : Assembler) : Prop :=
  preservesMeta a.validator.validate ∧
  a.estimator.metaOK ∧
  (∀ f ∈ a.pre_filters, f.metaOK) ∧
  (∀ f ∈ a.post_filters, f.metaOK) ∧
  (∀ v, a.visualiser = some v → preservesMeta v.visualise) ∧
  (∀ f, a.finaliser = some f → preservesMeta f.operate)

/-! ## Trace shape lemmas -/

theorem execute_filter_tr_shape (d : Bool) (f : FilterB) (s : State) :
    ∃ rest, (execute_filter d f s).tr = Event.opEv f.name s.frozen :: rest ∧
      ∀ e ∈ rest, e = Event.dumpEv f.name ∨ e = Event.doneEv f.name := by
  cases h1 : (f.operate s).2 with
  | true =>
    exact ⟨[], by simp [execute_filter, h1], by intro e he; cases he⟩
  | false =>
    cases d with
    | false =>
      exact ⟨[Event.doneEv f.name], by simp [execute_filter, h1], by
        intro e he; simp_all⟩
    | true =>
      cases h2 : (f.dump_output (f.operate s).1).2 with
      | true =>
        exact ⟨[Event.dumpEv f.name], by simp [execute_filter, h1, h2], by
          intro e he; simp_all⟩
      | false =>
        exact ⟨[Event.dumpEv f.name, Event.doneEv f.name],
          by simp [execute_filter, h1, h2], by intro e he; simp_all⟩

theorem execute_filter_tr_batch (d : Bool) (f : FilterB) (s : State) :
    ∀ e ∈ (execute_filter d f s).tr, isBatchEv e = true := by
  obtain ⟨rest, htr, hrest⟩ := execute_filter_tr_shape d f s
  rw [htr]
  intro e he
  rcases List.mem_cons.1 he with h | h
  · subst h; rfl
  · rcases hrest e h with h | h <;> subst h <;> rfl

theorem filterLoop_tr_batch (d : Bool) (fs : List FilterB) (s : State) :
    ∀ e ∈ (filterLoop d fs s).tr, isBatchEv e = true := by
  induction fs generalizing s with
  | nil => intro e he; cases he
  | cons f fs ih =>
    intro e he
    unfold filterLoop at he
    dsimp only at he
    split at he
    · exact execute_filter_tr_batch d f s e he
    · split at he
      · dsimp only at he
        rcases List.mem_append.1 he with h | h
        · exact execute_filter_tr_batch d f s e h
        · exact ih _ e h
      · exact execute_filter_tr_batch d f s e he

theorem execute_filters_tr_batch (d : Bool) (fs : List FilterB) (s : State) :
    ∀ e ∈ (execute_filters d fs s).tr, isBatchEv e = true := by
  intro e he
  exact filterLoop_tr_batch d fs s.freeze e he

theorem execute_main_tr_shape (d : Bool) (e : EstimatorB) (s : State) :
    ∃ rest, (execute_main d e s).tr = Event.estimateEv e.name :: rest ∧
      ∀ x ∈ rest, x = Event.dumpEv e.name ∨ x = Event.doneEv e.name := by
  cases h1 : (e.estimate s).2 with
  | true =>
    exact ⟨[], by simp [execute_main, h1], by intro x hx; cases hx⟩
  | false =>
    cases d with
    | false =>
      exact ⟨[Event.doneEv e.name], by simp [execute_main, h1], by
        intro x hx; simp_all⟩
    | true =>
      cases h2 : (e.dump_output (e.estimate s).1).2 with
      | true =>
        exact ⟨[Event.dumpEv e.name], by simp [execute_main, h1, h2], by
          intro x hx; simp_all⟩
      | false =>
        exact ⟨[Event.dumpEv e.name, Event.doneEv e.name],
          by simp [execute_main, h1, h2], by intro x hx; simp_all⟩

theorem execute_fit_tr_shape (d : Bool) (e : EstimatorB) (s : State) :
    ∃ rest, (execute_fit d e s).tr = Event.fitEv e.name :: rest ∧
      ∀ x ∈ rest, x = Event.dumpEv e.name ∨ x = Event.doneEv e.name := by
  cases h1 : (e.fit s).2 with
  | true =>
    exact ⟨[], by simp [execute_fit, h1], by intro x hx; cases hx⟩
  | false =>
    cases d with
    | false =>
      exact ⟨[Event.doneEv e.name], by simp [execute_fit, h1], by
        intro x hx; simp_all⟩
    | true =>
      cases h2 : (e.dump_output (e.fit s).1).2 with
      | true =>
        exact ⟨[Event.dumpEv e.name], by simp [execute_fit, h1, h2], by
          intro x hx; simp_all⟩
      | false =>
        exact ⟨[Event.dumpEv e.name, Event.doneEv e.name],
          by simp [execute_fit, h1, h2], by intro x hx; simp_all⟩

/-! ## Counting lemmas for each pipeline component -/

theorem countP_zero_of_not {p : Event → Bool} {tr : List Event}
    (h : ∀ e ∈ tr, p e = false) : tr.countP p = 0 :=
  List.countP_eq_zero.2 (by intro e he; simp [h e he])

theorem batch_ev_neg {e : Event} (h : isBatchEv e = true) :
    isFinalEv e = false ∧ isEstimateEv e = false ∧ isFitEv e = false ∧
      isVisEv e = false := by
  cases e <;> simp_all [isBatchEv, isFinalEv, isEstimateEv, isFitEv, isVisEv]

theorem batch_counts {tr : List Event} (h : ∀ e ∈ tr, isBatchEv e = true) :
    countFinal tr = 0 ∧ countEstimate tr = 0 ∧ countFit tr = 0 ∧
      countVis tr = 0 :=
  ⟨countP_zero_of_not (fun e he => (batch_ev_neg (h e he)).1),
   countP_zero_of_not (fun e he => (batch_ev_neg (h e he)).2.1),
   countP_zero_of_not (fun e he => (batch_ev_neg (h e he)).2.2.1),
   countP_zero_of_not (fun e he => (batch_ev_neg (h e he)).2.2.2)⟩

theorem preRes_counts (a : Assembler) (s : State) :
    countFinal (preRes a s).tr = 0 ∧ countEstimate (preRes a s).tr = 0 ∧
      countFit (preRes a s).tr = 0 ∧ countVis (preRes a s).tr = 0 := by
  unfold preRes
  split
  · simp [countFinal, countEstimate, countFit, countVis]
  · exact batch_counts (execute_filters_tr_batch _ _ _)

theorem postRes_counts (a : Assembler) (s : State) :
    countFinal (postRes a s).tr = 0 ∧ countEstimate (postRes a s).tr = 0 ∧
      countFit (postRes a s).tr = 0 ∧ countVis (postRes a s).tr = 0 := by
  unfold postRes
  split
  · simp [countFinal, countEstimate, countFit, countVis]
  · exact batch_counts (execute_filters_tr_batch _ _ _)

theorem estRes_counts (a : Assembler) (b : Bool) (s : State) :
    countEstimate (estRes a b s).tr = (if b then 0 else 1) ∧
      countFit (estRes a b s).tr = (if b then 1 else 0) ∧
      countVis (estRes a b s).tr = 0 ∧ countFinal (estRes a b s).tr = 0 := by
  cases b with
  | false =>
    obtain ⟨rest, htr, hrest⟩ := execute_main_tr_shape a.dumpOn a.estimator s
    have hr : ∀ p : Event → Bool, p (Event.dumpEv a.estimator.name) = false →
        p (Event.doneEv a.estimator.name) = false → rest.countP p = 0 := by
      intro p h1 h2
      exact countP_zero_of_not (by
        intro x hx
        rcases hrest x hx with h | h <;> subst h <;> assumption)
    simp [estRes, htr, countEstimate, countFit, countVis, countFinal,
      List.countP_cons, hr isEstimateEv rfl rfl, hr isFitEv rfl rfl,
      hr isVisEv rfl rfl, hr isFinalEv rfl rfl, isEstimateEv, isFitEv,
      isVisEv, isFinalEv]
  | true =>
    obtain ⟨rest, htr, hrest⟩ := execute_fit_tr_shape a.dumpOn a.estimator s
    have hr : ∀ p : Event → Bool, p (Event.dumpEv a.estimator.name) = false →
        p (Event.doneEv a.estimator.name) = false → rest.countP p = 0 := by
      intro p h1 h2
      exact countP_zero_of_not (by
        intro x hx
        rcases hrest x hx with h | h <;> subst h <;> assumption)
    simp [estRes, htr, countEstimate, countFit, countVis, countFinal,
      List.countP_cons, hr isEstimateEv rfl rfl, hr isFitEv rfl rfl,
      hr isVisEv rfl rfl, hr isFinalEv rfl rfl, isEstimateEv, isFitEv,
      isVisEv, isFinalEv]

theorem visRes_tr (a : Assembler) (b : Bool) (s : State) :
    (visRes a b s).tr =
      if (b || a.batch_mode) && a.visualiser.isSome then [Event.visualiseEv]
      else [] := by
  unfold visRes
  cases hv : a.visualiser <;> cases hb : (b || a.batch_mode) <;> simp [hv, hb]

theorem visRes_counts (a : Assembler) (b : Bool) (s : State) :
    countVis (visRes a b s).tr =
        (if (b || a.batch_mode) && a.visualiser.isSome then 1 else 0) ∧
      countEstimate (visRes a b s).tr = 0 ∧ countFit (visRes a b s).tr = 0 ∧
      countFinal (visRes a b s).tr = 0 := by
  rw [visRes_tr]
  split <;>
    simp [countVis, countEstimate, countFit, countFinal, isVisEv,
      isEstimateEv, isFitEv, isFinalEv]

theorem execute_main_noRaise (d : Bool) (e : EstimatorB) (s : State)
    (h1 : (e.estimate s).2 = false) (h2 : ∀ x, (e.dump_output x).2 = false) :
    (execute_main d e s).raised = false := by
  cases d <;> simp [execute_main, h1, h2]

theorem execute_fit_noRaise (d : Bool) (e : EstimatorB) (s : State)
    (h1 : (e.fit s).2 = false) (h2 : ∀ x, (e.dump_output x).2 = false) :
    (execute_fit d e s).raised = false := by
  cases d <;> simp [execute_fit, h1, h2]

theorem estRes_noRaise (a : Assembler) (b : Bool) (s : State)
    (hE : a.estimator.noRaise) : (estRes a b s).raised = false := by
  cases b with
  | false =>
    exact execute_main_noRaise _ _ _ (hE s).1 (fun x => (hE x).2.2)
  | true =>
    exact execute_fit_noRaise _ _ _ (hE s).2.1 (fun x => (hE x).2.2)

/-! ## Counting over the whole pipeline and run -/

theorem run_pipeline_counts (a : Assembler) (b : Bool) (s : State) :
    countFinal (run_pipeline a b s).tr = 0 ∧
      countEstimate (run_pipeline a b s).tr = (if b then 0 else 1) ∧
      countFit (run_pipeline a b s).tr = (if b then 1 else 0) := by
  have hp := preRes_counts a s
  have he := estRes_counts a b (preRes a s).st
  have ho := postRes_counts a (estRes a b (preRes a s).st).st
  have hv := visRes_counts a b (postRes a (estRes a b (preRes a s).st).st).st
  simp only [countFinal, countEstimate, countFit, countVis] at hp he ho hv
  unfold run_pipeline
  dsimp only
  split <;>
    simp only [countFinal, countEstimate, countFit, countVis,
      List.countP_append, hp.1, hp.2.1, hp.2.2.1, hp.2.2.2, he.1, he.2.1,
      he.2.2.1, he.2.2.2, ho.1, ho.2.1, ho.2.2.1, ho.2.2.2, hv.2.1,
      hv.2.2.1, hv.2.2.2] <;>
    simp

theorem run_pipeline_vis_count (a : Assembler) (b : Bool) (s : State) :
    countVis (run_pipeline a b s).tr =
      (if (estRes a b (preRes a s).st).raised then 0
       else if (b || a.batch_mode) && a.visualiser.isSome then 1 else 0) := by
  have hp := (preRes_counts a s).2.2.2
  have he := (estRes_counts a b (preRes a s).st).2.2.1
  have ho := (postRes_counts a (estRes a b (preRes a s).st).st).2.2.2
  have hv := (visRes_counts a b (postRes a (estRes a b (preRes a s).st).st).st).1
  simp only [countVis] at hp he ho hv
  unfold run_pipeline
  dsimp only
  split <;> rename_i hr
  · simp only [countVis, List.countP_append, hp, he, ho, hv, hr]
  · simp only [countVis, List.countP_append, hp, he, ho, hv, hr]
    simp [hr]

theorem runBody_tr (a : Assembler) (b : Bool) (st : State) :
    (runBody a b st).tr =
      (if (a.validator.validate st).2 then [Event.validateEv]
       else Event.validateEv :: (run_pipeline a b (a.validator.validate st).1).tr) ++
      (match a.finaliser with
       | some f => [Event.finalEv f.name]
       | none => []) := by
  unfold runBody
  cases hf : a.finaliser <;> cases hv : (a.validator.validate st).2 <;>
    simp [hf, hv]

theorem runBody_countEstimate (a : Assembler) (b : Bool) (st : State) :
    countEstimate (runBody a b st).tr =
      (if (a.validator.validate st).2 then 0 else if b then 0 else 1) := by
  rw [runBody_tr]
  have hpipe := (run_pipeline_counts a b (a.validator.validate st).1).2.1
  simp only [countEstimate] at hpipe ⊢
  rw [List.countP_append]
  cases hfin : a.finaliser <;> cases hv : (a.validator.validate st).2 <;>
    simp [hv, hfin, List.countP_cons, List.countP_nil, isEstimateEv, hpipe]

theorem runBody_countFit (a : Assembler) (b : Bool) (st : State) :
    countFit (runBody a b st).tr =
      (if (a.validator.validate st).2 then 0 else if b then 1 else 0) := by
  rw [runBody_tr]
  have hpipe := (run_pipeline_counts a b (a.validator.validate st).1).2.2
  simp only [countFit] at hpipe ⊢
  rw [List.countP_append]
  cases hfin : a.finaliser <;> cases hv : (a.validator.validate st).2 <;>
    simp [hv, hfin, List.countP_cons, List.countP_nil, isFitEv, hpipe]

theorem runBody_countVis (a : Assembler) (b : Bool) (st : State) :
    countVis (runBody a b st).tr =
      (if (a.validator.validate st).2 then 0
       else if (estRes a b (preRes a (a.validator.validate st).1).st).raised then 0
       else if (b || a.batch_mode) && a.visualiser.isSome then 1 else 0) := by
  rw [runBody_tr]
  have hpipe := run_pipeline_vis_count a b (a.validator.validate st).1
  simp only [countVis] at hpipe ⊢
  rw [List.countP_append]
  cases hfin : a.finaliser <;> cases hv : (a.validator.validate st).2 <;>
    simp [hv, hfin, List.countP_cons, List.countP_nil, isVisEv, hpipe]

theorem filterLoop_cons_head (d : Bool) (f : FilterB) (fs : List FilterB)
    (s : State) :
    (filterLoop d (f :: fs) s).tr.head? = some (Event.opEv f.name s.frozen) := by
  obtain ⟨rest, htr, _⟩ := execute_filter_tr_shape d f s
  unfold filterLoop
  dsimp only
  split
  · rw [htr]
    rfl
  · split
    · dsimp only
      rw [htr]
      rfl
    · rw [htr]
      rfl

theorem head_mem_of_head_eq {α : Type} {l : List α} {x : α}
    (h : l.head? = some x) : x ∈ l := by
  cases l with
  | nil => exact absurd h (by simp)
  | cons a l =>
    simp only [List.head?] at h
    have h2 := Option.some.inj h
    subst h2
    exact List.mem_cons_self a l

theorem batch_first_mem (d : Bool) (f : FilterB) (fs : List FilterB)
    (s : State) :
    Event.opEv f.name true ∈ (execute_filters d (f :: fs) s).tr := by
  have h := filterLoop_cons_head d f fs s.freeze
  have h2 : (execute_filters d (f :: fs) s).tr.head? =
      some (Event.opEv f.name true) := by
    simpa [execute_filters] using h
  exact head_mem_of_head_eq h2

theorem estRes_false (a : Assembler) (s : State) :
    estRes a false s = execute_main a.dumpOn a.estimator s := rfl

theorem estRes_true (a : Assembler) (s : State) :
    estRes a true s = execute_fit a.dumpOn a.estimator s := rfl

theorem postRes_cons (a : Assembler) (s : State) (p : FilterB)
    (ps : List FilterB) (h : a.post_filters = p :: ps) :
    postRes a s = execute_filters a.dumpOn a.post_filters s := by
  simp [postRes, h]

theorem run_pipeline_tr_ok (a : Assembler) (b : Bool) (s : State)
    (hr : (estRes a b (preRes a s).st).raised = false) :
    (run_pipeline a b s).tr =
      (preRes a s).tr ++ (estRes a b (preRes a s).st).tr ++
        (postRes a (estRes a b (preRes a s).st).st).tr ++
        (visRes a b (postRes a (estRes a b (preRes a s).st).st).st).tr := by
  unfold run_pipeline
  dsimp only
  rw [if_neg (by simp [hr])]

theorem runBody_tr_ok (a : Assembler) (b : Bool) (st : State)
    (hv : (a.validator.validate st).2 = false) :
    (runBody a b st).tr =
      Event.validateEv :: (run_pipeline a b (a.validator.validate st).1).tr ++
        (match a.finaliser with
         | some f => [Event.finalEv f.name]
         | none => []) := by
  rw [runBody_tr, hv]
  simp

theorem runBody_one_estimator (a : Assembler) (b : Bool) (st : State)
    (hv : (a.validator.validate st).2 = false) :
    countEstimate (runBody a b st).tr + countFit (runBody a b st).tr = 1 := by
  rw [runBody_countEstimate, runBody_countFit, hv]
  cases b <;> simp

theorem execute_filter_time (d : Bool) (f : FilterB) (s : State)
    (hf : f.timeOK) :
    ((execute_filter d f s).st).execution_time = s.execution_time := by
  cases hop : (f.operate s).2 with
  | true => simp [execute_filter, hop, hf.1 s]
  | false =>
    cases d with
    | false => simp [execute_filter, hop, hf.1 s]
    | true =>
      cases hdp : (f.dump_output (f.operate s).1).2 with
      | true =>
        simp [execute_filter, hop, hdp, hf.2 (f.operate s).1, hf.1 s]
      | false =>
        simp [execute_filter, hop, hdp, hf.2 (f.operate s).1, hf.1 s]

theorem filterLoop_time (d : Bool) (fs : List FilterB) (s : State)
    (h : ∀ f ∈ fs, f.timeOK) :
    ((filterLoop d fs s).st).execution_time = s.execution_time := by
  induction fs generalizing s with
  | nil => rfl
  | cons f fs ih =>
    have hf := h f (List.mem_cons_self f fs)
    have hfs : ∀ g ∈ fs, g.timeOK := fun g hg => h g (List.mem_cons_of_mem f hg)
    unfold filterLoop
    dsimp only
    split
    · exact execute_filter_time d f s hf
    · split
      · dsimp only
        rw [ih _ hfs, execute_filter_time d f s hf]
      · exact execute_filter_time d f s hf

theorem doneRecords_append (l1 l2 : List Event) :
    doneRecords (l1 ++ l2) = doneRecords l1 ++ doneRecords l2 := by
  simp [doneRecords, List.filterMap_append]

theorem execute_filter_meta (d : Bool) (f : FilterB) (s : State)
    (hf : f.metaOK) :
    ((execute_filter d f s).st).stage_metadata =
      s.stage_metadata ++ doneRecords (execute_filter d f s).tr := by
  cases hop : (f.operate s).2 with
  | true => simp [execute_filter, hop, hf.1 s, doneRecords]
  | false =>
    cases d with
    | false => simp [execute_filter, hop, hf.1 s, doneRecords]
    | true =>
      cases hdp : (f.dump_output (f.operate s).1).2 with
      | true =>
        simp [execute_filter, hop, hdp, hf.2 (f.operate s).1, hf.1 s,
          doneRecords]
      | false =>
        simp [execute_filter, hop, hdp, hf.2 (f.operate s).1, hf.1 s,
          doneRecords]

theorem filterLoop_meta (d : Bool) (fs : List FilterB) (s : State)
    (h : ∀ f ∈ fs, f.metaOK) :
    ((filterLoop d fs s).st).stage_metadata =
      s.stage_metadata ++ doneRecords (filterLoop d fs s).tr := by
  induction fs generalizing s with
  | nil => simp [filterLoop, doneRecords]
  | cons f fs ih =>
    have hf := h f (List.mem_cons_self f fs)
    have hfs : ∀ g ∈ fs, g.metaOK := fun g hg => h g (List.mem_cons_of_mem f hg)
    unfold filterLoop
    dsimp only
    split
    · exact execute_filter_meta d f s hf
    · split
      · dsimp only
        rw [ih _ hfs, execute_filter_meta d f s hf, doneRecords_append,
          List.append_assoc]
      · exact execute_filter_meta d f s hf

theorem execute_filters_meta (d : Bool) (fs : List FilterB) (s : State)
    (h : ∀ f ∈ fs, f.metaOK) :
    ((execute_filters d fs s).st).stage_metadata =
      s.stage_metadata ++ doneRecords (execute_filters d fs s).tr := by
  have hl := filterLoop_meta d fs s.freeze h
  unfold execute_filters
  dsimp only
  split
  · simpa [State.thaw, State.freeze] using hl
  · simpa [State.thaw, State.freeze] using hl

theorem execute_main_meta (d : Bool) (e : EstimatorB) (s : State)
    (he : e.metaOK) :
    ((execute_main d e s).st).stage_metadata =
      s.stage_metadata ++ doneRecords (execute_main d e s).tr := by
  cases hop : (e.estimate s).2 with
  | true => simp [execute_main, hop, he.1 s, doneRecords]
  | false =>
    cases d with
    | false => simp [execute_main, hop, he.1 s, doneRecords]
    | true =>
      cases hdp : (e.dump_output (e.estimate s).1).2 with
      | true =>
        simp [execute_main, hop, hdp, he.2.2 (e.estimate s).1, he.1 s,
          doneRecords]
      | false =>
        simp [execute_main, hop, hdp, he.2.2 (e.estimate s).1, he.1 s,
          doneRecords]

theorem execute_fit_meta (d : Bool) (e : EstimatorB) (s : State)
    (he : e.metaOK) :
    ((execute_fit d e s).st).stage_metadata =
      s.stage_metadata ++ doneRecords (execute_fit d e s).tr := by
  cases hop : (e.fit s).2 with
  | true => simp [execute_fit, hop, he.2.1 s, doneRecords]
  | false =>
    cases d with
    | false => simp [execute_fit, hop, he.2.1 s, doneRecords]
    | true =>
      cases hdp : (e.dump_output (e.fit s).1).2 with
      | true =>
        simp [execute_fit, hop, hdp, he.2.2 (e.fit s).1, he.2.1 s,
          doneRecords]
      | false =>
        simp [execute_fit, hop, hdp, he.2.2 (e.fit s).1, he.2.1 s,
          doneRecords]

theorem preRes_meta (a : Assembler) (s : State)
    (h : ∀ f ∈ a.pre_filters, f.metaOK) :
    ((preRes a s).st).stage_metadata =
      s.stage_metadata ++ doneRecords (preRes a s).tr := by
  unfold preRes
  split
  · simp [doneRecords]
  · exact execute_filters_meta _ _ _ h

theorem postRes_meta (a : Assembler) (s : State)
    (h : ∀ f ∈ a.post_filters, f.metaOK) :
    ((postRes a s).st).stage_metadata =
      s.stage_metadata ++ doneRecords (postRes a s).tr := by
  unfold postRes
  split
  · simp [doneRecords]
  · exact execute_filters_meta _ _ _ h

theorem estRes_meta (a : Assembler) (b : Bool) (s : State)
    (he : a.estimator.metaOK) :
    ((estRes a b s).st).stage_metadata =
      s.stage_metadata ++ doneRecords (estRes a b s).tr := by
  cases b with
  | false => exact execute_main_meta _ _ _ he
  | true => exact execute_fit_meta _ _ _ he

theorem visRes_meta (a : Assembler) (b : Bool) (s : State)
    (hvis : ∀ v, a.visualiser = some v → preservesMeta v.visualise) :
    ((visRes a b s).st).stage_metadata =
      s.stage_metadata ++ doneRecords (visRes a b s).tr := by
  unfold visRes
  split
  · cases hv : a.visualiser with
    | none => simp [doneRecords]
    | some v => simp [doneRecords, hvis v hv s]
  · simp [doneRecords]

theorem run_pipeline_meta (a : Assembler) (b : Bool) (s : State)
    (hE : a.estimator.metaOK) (hpre : ∀ f ∈ a.pre_filters, f.metaOK)
    (hpost : ∀ f ∈ a.post_filters, f.metaOK)
    (hvis : ∀ v, a.visualiser = some v → preservesMeta v.visualise) :
    ((run_pipeline a b s).st).stage_metadata =
      s.stage_metadata ++ doneRecords (run_pipeline a b s).tr := by
  have h1 := preRes_meta a s hpre
  have h2 := estRes_meta a b (preRes a s).st hE
  unfold run_pipeline
  dsimp only
  split
  · rw [h2, h1, doneRecords_append, List.append_assoc]
  · have h3 := postRes_meta a (estRes a b (preRes a s).st).st hpost
    have h4 := visRes_meta a b
      (postRes a (estRes a b (preRes a s).st).st).st hvis
    rw [h4, h3, h2, h1, doneRecords_append, doneRecords_append,
      doneRecords_append]
    simp [List.append_assoc]

theorem runBody_meta (a : Assembler) (b : Bool) (st : State)
    (H : a.metaOK) :
    ((runBody a b st).st).stage_metadata =
      st.stage_metadata ++ doneRecords (runBody a b st).tr := by
  have hval := H.1 st
  unfold runBody
  dsimp only
  cases hf : a.finaliser with
  | none =>
    cases hv : (a.validator.validate st).2 with
    | true => simp [hv, doneRecords, hval]
    | false =>
      have hp := run_pipeline_meta a b (a.validator.validate st).1
        H.2.1 H.2.2.1 H.2.2.2.1 H.2.2.2.2.1
      simp only [hv]
      simp [doneRecords, hp, hval]
  | some f =>
    have hfin := H.2.2.2.2.2 f hf
    cases hv : (a.validator.validate st).2 with
    | true =>
      simp [hv, doneRecords, doneRecords_append, hval,
        hfin (a.validator.validate st).1]
    | false =>
      have hp := run_pipeline_meta a b (a.validator.validate st).1
        H.2.1 H.2.2.1 H.2.2.2.1 H.2.2.2.2.1
      simp only [hv]
      simp [doneRecords_append, doneRecords,
        hfin (run_pipeline a b (a.validator.validate st).1).st, hp, hval]

theorem execute_filter_meta_cases (d : Bool) (f : FilterB) (s : State)
    (hf : f.metaOK) :
    ((execute_filter d f s).raised = false →
      ((execute_filter d f s).st).stage_metadata =
        s.stage_metadata ++ [(f.name, durationStr)]) ∧
    ((execute_filter d f s).raised = true →
      ((execute_filter d f s).st).stage_metadata = s.stage_metadata) := by
  cases hop : (f.operate s).2 with
  | true =>
    refine ⟨?_, ?_⟩
    · intro hri
      exfalso
      simp [execute_filter, hop] at hri
    · intro hri
      simp [execute_filter, hop, hf.1 s]
  | false =>
    cases d with
    | false =>
      refine ⟨?_, ?_⟩
      · intro hri
        simp [execute_filter, hop, hf.1 s]
      · intro hri
        exfalso
        simp [execute_filter, hop] at hri
    | true =>
      cases hdp : (f.dump_output (f.operate s).1).2 with
      | true =>
        refine ⟨?_, ?_⟩
        · intro hri
          exfalso
          simp [execute_filter, hop, hdp] at hri
        · intro hri
          simp [execute_filter, hop, hdp, hf.2 (f.operate s).1, hf.1 s]
      | false =>
        refine ⟨?_, ?_⟩
        · intro hri
          simp [execute_filter, hop, hdp, hf.2 (f.operate s).1, hf.1 s]
        · intro hri
          exfalso
          simp [execute_filter, hop, hdp] at hri

theorem execute_main_meta_cases (d : Bool) (e : EstimatorB) (s : State)
    (he : e.metaOK) :
    ((execute_main d e s).raised = false →
      ((execute_main d e s).st).stage_metadata =
        s.stage_metadata ++ [(e.name, durationStr)]) ∧
    ((execute_main d e s).raised = true →
      ((execute_main d e s).st).stage_metadata = s.stage_metadata) := by
  cases hop : (e.estimate s).2 with
  | true =>
    refine ⟨?_, ?_⟩
    · intro hri
      exfalso
      simp [execute_main, hop] at hri
    · intro hri
      simp [execute_main, hop, he.1 s]
  | false =>
    cases d with
    | false =>
      refine ⟨?_, ?_⟩
      · intro hri
        simp [execute_main, hop, he.1 s]
      · intro hri
        exfalso
        simp [execute_main, hop] at hri
    | true =>
      cases hdp : (e.dump_output (e.estimate s).1).2 with
      | true =>
        refine ⟨?_, ?_⟩
        · intro hri
          exfalso
          simp [execute_main, hop, hdp] at hri
        · intro hri
          simp [execute_main, hop, hdp, he.2.2 (e.estimate s).1, he.1 s]
      | false =>
        refine ⟨?_, ?_⟩
        · intro hri
          simp [execute_main, hop, hdp, he.2.2 (e.estimate s).1, he.1 s]
        · intro hri
          exfalso
          simp [execute_main, hop, hdp] at hri

theorem execute_fit_meta_cases (d : Bool) (e : EstimatorB) (s : State)
    (he : e.metaOK) :
    ((execute_fit d e s).raised = false →
      ((execute_fit d e s).st).stage_metadata =
        s.stage_metadata ++ [(e.name, durationStr)]) ∧
    ((execute_fit d e s).raised = true →
      ((execute_fit d e s).st).stage_metadata = s.stage_metadata) := by
  cases hop : (e.fit s).2 with
  | true =>
    refine ⟨?_, ?_⟩
    · intro hri
      exfalso
      simp [execute_fit, hop] at hri
    · intro hri
      simp [execute_fit, hop, he.2.1 s]
  | false =>
    cases d with
    | false =>
      refine ⟨?_, ?_⟩
      · intro hri
        simp [execute_fit, hop, he.2.1 s]
      · intro hri
        exfalso
        simp [execute_fit, hop] at hri
    | true =>
      cases hdp : (e.dump_output (e.fit s).1).2 with
      | true =>
        refine ⟨?_, ?_⟩
        · intro hri
          exfalso
          simp [execute_fit, hop, hdp] at hri
        · intro hri
          simp [execute_fit, hop, hdp, he.2.2 (e.fit s).1, he.2.1 s]
      | false =>
        refine ⟨?_, ?_⟩
        · intro hri
          simp [execute_fit, hop, hdp, he.2.2 (e.fit s).1, he.2.1 s]
        · intro hri
          exfalso
          simp [execute_fit, hop, hdp] at hri

/-! ## Concrete stages used in witnesses and counterexamples -/

/-- A filter whose operate always raises. -/
def raiseF (n : String) : FilterB :=
  ⟨n, fun s => (s, true), fun s => (s, false)⟩

/-- A filter that does nothing and never raises. -/
def benignF (n : String) : FilterB :=
  ⟨n, fun s => (s, false), fun s => (s, false)⟩

/-- A filter that appends an error record to the carrier and returns
normally. -/
def errorF (n : String) : FilterB :=
  ⟨n, fun s => ({ s with errors := s.errors ++ ["bad"] }, false),
   fun s => (s, false)⟩

/-- A validator that accepts everything. -/
def benignV : ValidatorB := ⟨fun s => (s, false)⟩

/-- A validator that always raises. -/
def raiseV : ValidatorB := ⟨fun s => (s, true)⟩

/-- An estimator that does nothing and never raises. -/
def benignE (n : String) : EstimatorB :=
  ⟨n, fun s => (s, false), fun s => (s, false), fun s => (s, false)⟩

/-- An estimator whose estimate and fit always raise. -/
def raiseE (n : String) : EstimatorB :=
  ⟨n, fun s => (s, true), fun s => (s, true), fun s => (s, false)⟩

/-- An estimator that appends an error record and returns normally. -/
def errorE (n : String) : EstimatorB :=
  ⟨n, fun s => ({ s with errors := s.errors ++ ["est-bad"] }, false),
   fun s => ({ s with errors := s.errors ++ ["est-bad"] }, false),
   fun s => (s, false)⟩

/-- A visualiser that never raises. -/
def benignVis : VisualiserB := ⟨fun s => (s, false)⟩

/-- A visualiser that always raises. -/
def raiseVis : VisualiserB := ⟨fun s => (s, true)⟩

/-- An empty initial carrier. -/
def st0 : State := ⟨0, [], [], none, false⟩

/-! ## Claim theorems -/

/-- Counterexample composition for C5: a validator that always raises. -/
def cexA5 : Assembler :=
  ⟨raiseV, benignE "HelloStage", [], [], none, none, false, true, false⟩

/-- Witness composition for C5: benign validator, raising estimator and
filters, so the mode dispatch is exercised in a degraded run. -/
def witA5 : Assembler :=
  ⟨benignV, raiseE "HelloStage", [raiseF "PreF"], [raiseF "PostF"],
   some raiseVis, some (raiseF "FinalF"), true, true, true⟩

/-- Counterexample composition for C6: a validator that always raises
with a visualiser set and batch mode on. -/
def cexA6 : Assembler :=
  ⟨raiseV, benignE "HelloStage", [], [], some benignVis, none, true, true, false⟩

/-- Witness composition for C6: benign validator and estimator, raising
post-filter, visualiser set, batch mode off. -/
def witA6 : Assembler :=
  ⟨benignV, benignE "HelloStage", [], [raiseF "PostF"], some benignVis,
   none, false, true, false⟩

/-- Claim C2 (confirmed): for every run with a non-null carrier, the
finaliser operate is invoked exactly once when a finaliser is set,
regardless of what the validator, filters, estimator or visualiser do
(including raising), and zero times when no finaliser is set. -/
theorem c2_finaliser_exactly_once (a : Assembler) (st : State) (b : Bool) :
    countFinal (runBody a b st).tr = (if a.finaliser.isSome then 1 else 0) := by
  rw [runBody_tr]
  rw [countFinal, List.countP_append]
  have h1 : List.countP isFinalEv
      (if (a.validator.validate st).2 then [Event.validateEv]
       else Event.validateEv ::
         (run_pipeline a b (a.validator.validate st).1).tr) = 0 := by
    split
    · simp [isFinalEv]
    · rw [List.countP_cons]
      have := (run_pipeline_counts a b (a.validator.validate st).1).1
      simp only [countFinal] at this
      simp [this, isFinalEv]
  rw [h1]
  cases a.finaliser <;> simp [isFinalEv]

/-- Claim C5 counterexample: in a run whose validator raises, with
is_training false, the estimate operation is never invoked, refuting
the unconditional iff between estimate invocation and the training
flag. -/
theorem c5_counterexample :
    countEstimate (runBody cexA5 false st0).tr = 0 := by decide

/-- Claim C5 (amended): provided the validator does not raise on the
input carrier, estimate is invoked exactly once iff is_training is
false and fit exactly once iff is_training is true; and in every run,
raising validator included, the operation of the non-selected mode is
never invoked, so estimate and fit never both run. -/
theorem c5_amended :
    (∀ (a : Assembler) (st : State) (b : Bool),
        (a.validator.validate st).2 = false →
        countEstimate (runBody a b st).tr = (if b then 0 else 1) ∧
          countFit (runBody a b st).tr = (if b then 1 else 0)) ∧
    (∀ (a : Assembler) (st : State) (b : Bool),
        (if b then countEstimate (runBody a b st).tr
         else countFit (runBody a b st).tr) = 0) := by
  constructor
  · intro a st b hv
    constructor
    · simp [runBody_countEstimate, hv]
    · simp [runBody_countFit, hv]
  · intro a st b
    cases b <;> simp [runBody_countEstimate, runBody_countFit]

/-- Witness for the amended C5 on a concrete degraded run: the validator
passes, every other stage raises, and with is_training false the
estimate operation is invoked exactly once while fit is not invoked. -/
theorem c5_witness :
    (witA5.validator.validate st0).2 = false ∧
      countEstimate (runBody witA5 false st0).tr = 1 ∧
      countFit (runBody witA5 false st0).tr = 0 := by
  refine ⟨rfl, ?_, ?_⟩
  · have h := (c5_amended.1 witA5 st0 false rfl).1
    simpa using h
  · have h := (c5_amended.1 witA5 st0 false rfl).2
    simpa using h

/-- Claim C6 counterexample: in a run whose validator raises, with
is_training true and a visualiser set, the visualiser is not invoked,
refuting the unconditional iff. -/
theorem c6_counterexample :
    ((true || cexA6.batch_mode) && cexA6.visualiser.isSome) = true ∧
      countVis (runBody cexA6 true st0).tr = 0 := by
  refine ⟨rfl, ?_⟩
  decide

/-- Claim C6 (amended): provided the validator does not raise on the
input carrier and the estimator stage does not raise, the visualiser is
invoked exactly once iff (is_training or batch mode) and a visualiser
is set; and in every run whatsoever the visualiser is never invoked
when that condition is false. -/
theorem c6_amended :
    (∀ (a : Assembler) (st : State) (b : Bool),
        (a.validator.validate st).2 = false → a.estimator.noRaise →
        countVis (runBody a b st).tr =
          (if (b || a.batch_mode) && a.visualiser.isSome then 1 else 0)) ∧
    (∀ (a : Assembler) (st : State) (b : Bool),
        ((b || a.batch_mode) && a.visualiser.isSome) = false →
        countVis (runBody a b st).tr = 0) := by
  constructor
  · intro a st b hv hE
    rw [runBody_countVis, hv]
    simp [estRes_noRaise _ _ _ hE]
  · intro a st b hcond
    rw [runBody_countVis, hcond]
    simp

/-- Witness for the amended C6 on a concrete run: validator and
estimator are benign, a post-filter raises, batch mode is off but
is_training is true with a visualiser set, and the visualiser is
invoked exactly once. -/
theorem c6_witness :
    (witA6.validator.validate st0).2 = false ∧
      countVis (runBody witA6 true st0).tr = 1 := by
  refine ⟨rfl, ?_⟩
  have h := c6_amended.1 witA6 st0 true rfl (by
    intro s
    exact ⟨rfl, rfl, rfl⟩)
  simpa using h

/-- Counterexample composition for C1: every stage raises, including the
finaliser. -/
def cexA1 : Assembler :=
  ⟨raiseV, raiseE "HelloStage", [raiseF "PreF"], [raiseF "PostF"],
   some raiseVis, some (raiseF "FinalF"), true, true, true⟩

/-- Witness composition for C1: every stage of the pipeline body raises
but the finaliser returns normally. -/
def witA1 : Assembler :=
  ⟨raiseV, raiseE "HelloStage", [raiseF "PreF"], [raiseF "PostF"],
   some raiseVis, some (benignF "FinalF"), true, true, true⟩

/-- Claim C1 counterexample: with a non-null carrier and a finaliser
whose operate raises, the exception raised inside the unguarded finally
block escapes the run call, so the null-carrier precondition error is
not the only exception run may raise. -/
theorem c1_counterexample : escapes (run cexA1 (some st0) false) = true := by
  decide

/-- Claim C1 (amended): with a non-null carrier, run never lets an
exception escape provided the finaliser (when set) does not raise, no
matter what the validator, filters, estimator and visualiser do; and a
null carrier always produces the precondition error. The finally block
is unguarded, so a raising finaliser is the one further exception run
can surface. -/
theorem c1_amended :
    (∀ (a : Assembler) (st : State) (b : Bool),
        (∀ f, a.finaliser = some f → ∀ s, (f.operate s).2 = false) →
        escapes (run a (some st) b) = false) ∧
    (∀ (a : Assembler) (b : Bool),
        run a none b = Except.error "state is required to run an assembler") := by
  constructor
  · intro a st b hfin
    simp only [run, escapes]
    unfold runBody
    cases hf : a.finaliser
    · simp
    · rename_i f
      simp [hfin f hf]
  · intro a b
    rfl

/-- Witness for the amended C1: on a composition where every pipeline
stage raises and the finaliser is benign, no exception escapes run. -/
theorem c1_witness :
    (∀ f, witA1.finaliser = some f → ∀ s, (f.operate s).2 = false) ∧
      escapes (run witA1 (some st0) false) = false := by
  constructor
  · intro f hf s
    have h := Option.some.inj hf
    subst h
    rfl
  · exact c1_amended.1 witA1 st0 false (by
      intro f hf s
      have h := Option.some.inj hf
      subst h
      rfl)

/-- Claim C7 (confirmed): a filter batch freezes the carrier before the
first filter runs (the first operate call observes a frozen carrier)
and the carrier is thawed after the batch in every outcome, raising
filters and error short-circuits included: the batch result always has
frozen set to false. -/
theorem c7_freeze_thaw :
    (∀ (d : Bool) (fs : List FilterB) (s : State),
        ((execute_filters d fs s).st).frozen = false) ∧
    (∀ (d : Bool) (f : FilterB) (fs : List FilterB) (s : State),
        ((execute_filters d (f :: fs) s).tr).head? =
          some (Event.opEv f.name true)) := by
  constructor
  · intro d fs s
    simp [execute_filters, State.thaw]
  · intro d f fs s
    have h := filterLoop_cons_head d f fs s.freeze
    simpa [execute_filters] using h

/-- Witness composition for C4: the estimator leaves error records on
the carrier and a post-filter is configured. -/
def witA4 : Assembler :=
  ⟨benignV, errorE "EstE", [], [benignF "PostF"], none, none, false, true, false⟩

/-- Claim C4 (confirmed): in every run whose estimator stage executes
(the validator lets the body run and the estimator stage completes
without an exception), the post-filter batch runs right after the
estimator: the trace splits at the single estimate/fit event and the
first post-filter operate appears after it. The statement holds for
every carrier and every stage behaviour, in particular whatever error
state the estimator leaves on the carrier: no error-short-circuit check
follows estimator execution. -/
theorem c4_post_after_estimator :
    ∀ (a : Assembler) (st : State) (b : Bool),
      (a.validator.validate st).2 = false → a.estimator.noRaise →
      ∀ p ps, a.post_filters = p :: ps →
      ∃ tr1 tr2,
        (runBody a b st).tr =
          tr1 ++ (if b then Event.fitEv a.estimator.name
                  else Event.estimateEv a.estimator.name) :: tr2 ∧
          Event.opEv p.name true ∈ tr2 := by
  intro a st b hv hE p ps hpost
  have hr := estRes_noRaise a b (preRes a (a.validator.validate st).1).st hE
  rw [runBody_tr_ok a b st hv, run_pipeline_tr_ok a b _ hr]
  have hm : Event.opEv p.name true ∈
      (postRes a (estRes a b (preRes a (a.validator.validate st).1).st).st).tr := by
    rw [postRes_cons a _ p ps hpost, hpost]
    exact batch_first_mem _ _ _ _
  cases b with
  | false =>
    obtain ⟨rest, htr, _⟩ :=
      execute_main_tr_shape a.dumpOn a.estimator
        (preRes a (a.validator.validate st).1).st
    rw [estRes_false, htr]
    refine ⟨Event.validateEv :: (preRes a (a.validator.validate st).1).tr,
      rest ++
        ((postRes a (estRes a false (preRes a (a.validator.validate st).1).st).st).tr ++
          ((visRes a false
              (postRes a (estRes a false (preRes a (a.validator.validate st).1).st).st).st).tr ++
            (match a.finaliser with
             | some f => [Event.finalEv f.name]
             | none => []))), ?_, ?_⟩
    · rw [estRes_false] at *
      simp [List.append_assoc]
    · rw [estRes_false] at *
      exact List.mem_append.2 (Or.inr (List.mem_append.2 (Or.inl hm)))
  | true =>
    obtain ⟨rest, htr, _⟩ :=
      execute_fit_tr_shape a.dumpOn a.estimator
        (preRes a (a.validator.validate st).1).st
    rw [estRes_true, htr]
    refine ⟨Event.validateEv :: (preRes a (a.validator.validate st).1).tr,
      rest ++
        ((postRes a (estRes a true (preRes a (a.validator.validate st).1).st).st).tr ++
          ((visRes a true
              (postRes a (estRes a true (preRes a (a.validator.validate st).1).st).st).st).tr ++
            (match a.finaliser with
             | some f => [Event.finalEv f.name]
             | none => []))), ?_, ?_⟩
    · rw [estRes_true] at *
      simp [List.append_assoc]
    · rw [estRes_true] at *
      exact List.mem_append.2 (Or.inr (List.mem_append.2 (Or.inl hm)))

/-- Witness for C4 on a concrete run: the estimator appends error
records to the carrier, yet the post-filter operate event appears after
the estimate event. -/
theorem c4_witness :
    (witA4.validator.validate st0).2 = false ∧
      (∃ tr1 tr2,
        (runBody witA4 false st0).tr =
          tr1 ++ Event.estimateEv "EstE" :: tr2 ∧
          Event.opEv "PostF" true ∈ tr2) := by
  refine ⟨rfl, ?_⟩
  have h := c4_post_after_estimator witA4 st0 false rfl
    (by intro s; exact ⟨rfl, rfl, rfl⟩) (benignF "PostF") [] rfl
  simpa using h

/-- True when the trace contains an operate event for the named filter. -/
def hasOp (n : String) (tr : List Event) : Bool :=
  tr.any (fun e => match e with
    | Event.opEv m _ => m == n
    | _ => false)

/-- Counterexample composition for C3: a pre-filter appends an error
record and returns normally, a second pre-filter follows, the estimator
raises, and a post-filter is configured. -/
def cexA3 : Assembler :=
  ⟨benignV, raiseE "EstE", [errorF "PreA", benignF "PreB"],
   [benignF "PostF"], none, none, false, true, false⟩

/-- Witness composition for C3: same shape but with a benign estimator
and a finaliser. -/
def witA3 : Assembler :=
  ⟨benignV, benignE "EstE", [errorF "PreA", benignF "PreB"],
   [benignF "PostF"], none, some (benignF "FinalF"), false, true, false⟩

/-- Claim C3 counterexample: in a run where the first pre-filter
appends an error record without raising (final errors list is exactly
that record and the later pre-filter is indeed skipped), a raising
estimator prevents the post-filter from executing, refuting the claim
that the post-filters still execute in every such run. -/
theorem c3_counterexample :
    hasOp "PreA" (runBody cexA3 false st0).tr = true ∧
      ((runBody cexA3 false st0).st).errors = ["bad"] ∧
      hasOp "PreB" (runBody cexA3 false st0).tr = false ∧
      hasOp "PostF" (runBody cexA3 false st0).tr = false := by
  refine ⟨by decide, by decide, by decide, by decide⟩

/-- Claim C3 (amended): when a pre-filter leaves a non-empty errors list
on the carrier without raising, no later filter in the same batch
executes (the batch returns right after that filter); the estimator is
still invoked exactly once in any run whose validator passes; the first
post-filter still executes provided the estimator stage does not raise;
and the finaliser is still invoked whenever one is set. -/
theorem c3_amended :
    (∀ (d : Bool) (f : FilterB) (fs : List FilterB) (s : State),
        (execute_filter d f s).raised = false →
        ((execute_filter d f s).st).errors ≠ [] →
        filterLoop d (f :: fs) s =
          ⟨(execute_filter d f s).st, (execute_filter d f s).tr, false⟩) ∧
    (∀ (a : Assembler) (st : State) (b : Bool),
        (a.validator.validate st).2 = false →
        countEstimate (runBody a b st).tr + countFit (runBody a b st).tr = 1) ∧
    (∀ (a : Assembler) (st : State) (b : Bool),
        (a.validator.validate st).2 = false → a.estimator.noRaise →
        ∀ p ps, a.post_filters = p :: ps →
        Event.opEv p.name true ∈ (runBody a b st).tr) ∧
    (∀ (a : Assembler) (st : State) (b : Bool) (f : FilterB),
        a.finaliser = some f → Event.finalEv f.name ∈ (runBody a b st).tr) := by
  refine ⟨?_, ?_, ?_, ?_⟩
  · intro d f fs s h1 h2
    unfold filterLoop
    dsimp only
    rw [if_neg (by simp [h1]), if_neg (by simp [h2])]
  · intro a st b hv
    exact runBody_one_estimator a b st hv
  · intro a st b hv hE p ps hpost
    have hr := estRes_noRaise a b (preRes a (a.validator.validate st).1).st hE
    have hm : Event.opEv p.name true ∈
        (postRes a (estRes a b (preRes a (a.validator.validate st).1).st).st).tr := by
      rw [postRes_cons a _ p ps hpost, hpost]
      exact batch_first_mem _ _ _ _
    rw [runBody_tr_ok a b st hv, run_pipeline_tr_ok a b _ hr]
    simp only [List.mem_cons, List.mem_append]
    tauto
  · intro a st b f hf
    rw [runBody_tr, hf]
    simp

/-- Witness for the amended C3 on concrete inputs: the error-appending
pre-filter stops its batch right there; on the full composition with a
benign estimator the estimator runs exactly once, the post-filter
operate event appears, and the finaliser event appears. -/
theorem c3_witness :
    (execute_filter false (errorF "PreA") st0).raised = false ∧
      ((execute_filter false (errorF "PreA") st0).st).errors ≠ [] ∧
      filterLoop false (errorF "PreA" :: [benignF "PreB"]) st0 =
        ⟨(execute_filter false (errorF "PreA") st0).st,
         (execute_filter false (errorF "PreA") st0).tr, false⟩ ∧
      countEstimate (runBody witA3 false st0).tr +
          countFit (runBody witA3 false st0).tr = 1 ∧
      Event.opEv "PostF" true ∈ (runBody witA3 false st0).tr ∧
      Event.finalEv "FinalF" ∈ (runBody witA3 false st0).tr := by
  refine ⟨rfl, by decide, ?_, ?_, ?_, ?_⟩
  · exact c3_amended.1 false (errorF "PreA") [benignF "PreB"] st0 rfl (by decide)
  · exact c3_amended.2.1 witA3 st0 false rfl
  · have h := c3_amended.2.2.1 witA3 st0 false rfl
      (by intro s; exact ⟨rfl, rfl, rfl⟩) (benignF "PostF") [] rfl
    simpa using h
  · exact c3_amended.2.2.2 witA3 st0 false (benignF "FinalF") rfl

/-- Witness composition for C10: benign validator and estimator, raising
pre- and post-filters, a visualiser set and batch mode on. -/
def witA10 : Assembler :=
  ⟨benignV, benignE "EstE", [raiseF "PreF"], [raiseF "PostF"],
   some benignVis, none, true, true, false⟩

/-- Claim C10 (confirmed): an exception raised inside a filter batch is
caught at the batch boundary: a batch never propagates an exception
(its raised flag is always false); after a raising pre-filter batch the
estimator stage is still invoked exactly once (validator passing), and
after a raising post-filter batch the visualiser decision still
executes (validator passing and estimator stage completing); but when
the batch loop raised, the execution_time field is left exactly as it
was (stages not writing it themselves), that is, the batch records no
execution_time. -/
theorem c10_batch_boundary :
    (∀ (d : Bool) (fs : List FilterB) (s : State),
        (∀ f ∈ fs, f.timeOK) →
        (filterLoop d fs s.freeze).raised = true →
        ((execute_filters d fs s).st).execution_time = s.execution_time) ∧
    (∀ (d : Bool) (fs : List FilterB) (s : State),
        (execute_filters d fs s).raised = false) ∧
    (∀ (a : Assembler) (st : State) (b : Bool),
        (a.validator.validate st).2 = false →
        countEstimate (runBody a b st).tr + countFit (runBody a b st).tr = 1) ∧
    (∀ (a : Assembler) (st : State) (b : Bool),
        (a.validator.validate st).2 = false → a.estimator.noRaise →
        countVis (runBody a b st).tr =
          (if (b || a.batch_mode) && a.visualiser.isSome then 1 else 0)) := by
  refine ⟨?_, ?_, ?_, ?_⟩
  · intro d fs s h hr
    have ht := filterLoop_time d fs s.freeze h
    unfold execute_filters
    dsimp only
    rw [if_pos hr]
    simp only [State.thaw]
    rw [ht]
    rfl
  · intro d fs s
    rfl
  · intro a st b hv
    exact runBody_one_estimator a b st hv
  · intro a st b hv hE
    rw [runBody_countVis, hv]
    simp [estRes_noRaise _ _ _ hE]

/-- Witness for C10 on concrete inputs: with a raising pre-filter the
loop raised and the batch leaves execution_time untouched, the
estimator still runs exactly once, and with a raising post-filter plus
batch mode the visualiser still runs. -/
theorem c10_witness :
    (filterLoop false [raiseF "PreF"] st0.freeze).raised = true ∧
      ((execute_filters false [raiseF "PreF"] st0).st).execution_time =
        st0.execution_time ∧
      countEstimate (runBody witA10 false st0).tr +
          countFit (runBody witA10 false st0).tr = 1 ∧
      countVis (runBody witA10 false st0).tr = 1 := by
  refine ⟨by decide, ?_, ?_, ?_⟩
  · exact c10_batch_boundary.1 false [raiseF "PreF"] st0
      (by
        intro f hf
        simp only [List.mem_singleton] at hf
        subst hf
        exact ⟨fun s => rfl, fun s => rfl⟩)
      (by decide)
  · exact c10_batch_boundary.2.2.1 witA10 st0 false rfl
  · have h := c10_batch_boundary.2.2.2 witA10 st0 false rfl
      (by intro s; exact ⟨rfl, rfl, rfl⟩)
    simpa using h

/-- Counterexample composition for C8: an estimator whose estimate
raises, so the estimator call appends no stage-metadata record. -/
def cexA8 : Assembler :=
  ⟨benignV, raiseE "EstE", [], [], none, none, false, true, false⟩

/-- Witness composition for C8: a benign pre-filter, benign estimator
and a raising post-filter. -/
def witA8 : Assembler :=
  ⟨benignV, benignE "EstE", [benignF "PreF"], [raiseF "PostF"],
   none, none, false, true, false⟩

/-- Claim C8 counterexample: a run whose estimator call raises performs
exactly one estimator call (the estimate event is in the trace) but
appends no stage-metadata record at all, refuting one record per
estimator call. -/
theorem c8_counterexample :
    countEstimate (runBody cexA8 false st0).tr = 1 ∧
      ((runBody cexA8 false st0).st).stage_metadata = [] := by
  refine ⟨by decide, by decide⟩

/-- Claim C8 (amended): when stages themselves leave stage_metadata to
the orchestrator, the final stage_metadata equals the initial records
followed by exactly the records of the completed stage executions, in
execution order (the doneRecords of the run trace); a filter or
estimator invocation that completes without raising appends exactly the
one record keyed by its stage name, and an invocation that raises (in
operate, estimate, fit or dump_output) appends none. -/
theorem c8_amended :
    (∀ (a : Assembler) (st : State) (b : Bool), a.metaOK →
        ((runBody a b st).st).stage_metadata =
          st.stage_metadata ++ doneRecords (runBody a b st).tr) ∧
    (∀ (d : Bool) (f : FilterB) (s : State), f.metaOK →
        ((execute_filter d f s).raised = false →
          ((execute_filter d f s).st).stage_metadata =
            s.stage_metadata ++ [(f.name, durationStr)]) ∧
        ((execute_filter d f s).raised = true →
          ((execute_filter d f s).st).stage_metadata = s.stage_metadata)) ∧
    (∀ (d : Bool) (e : EstimatorB) (s : State), e.metaOK →
        ((execute_main d e s).raised = false →
          ((execute_main d e s).st).stage_metadata =
            s.stage_metadata ++ [(e.name, durationStr)]) ∧
        ((execute_main d e s).raised = true →
          ((execute_main d e s).st).stage_metadata = s.stage_metadata) ∧
        ((execute_fit d e s).raised = false →
          ((execute_fit d e s).st).stage_metadata =
            s.stage_metadata ++ [(e.name, durationStr)]) ∧
        ((execute_fit d e s).raised = true →
          ((execute_fit d e s).st).stage_metadata = s.stage_metadata)) := by
  refine ⟨?_, ?_, ?_⟩
  · intro a st b H
    exact runBody_meta a b st H
  · intro d f s hf
    exact execute_filter_meta_cases d f s hf
  · intro d e s he
    refine ⟨(execute_main_meta_cases d e s he).1,
      (execute_main_meta_cases d e s he).2,
      (execute_fit_meta_cases d e s he).1,
      (execute_fit_meta_cases d e s he).2⟩

/-- Witness for the amended C8 on a concrete run: the completed
pre-filter and estimator each contribute exactly one record in
execution order, while the raising post-filter contributes none. -/
theorem c8_witness :
    ((runBody witA8 false st0).st).stage_metadata =
        st0.stage_metadata ++ doneRecords (runBody witA8 false st0).tr ∧
      ((runBody witA8 false st0).st).stage_metadata =
        [("PreF", durationStr), ("EstE", durationStr)] := by
  constructor
  · exact c8_amended.1 witA8 st0 false
      ⟨fun s => rfl,
       ⟨fun s => rfl, fun s => rfl, fun s => rfl⟩,
       by
         intro f hf
         simp only [witA8, List.mem_singleton] at hf
         subst hf
         exact ⟨fun s => rfl, fun s => rfl⟩,
       by
         intro f hf
         simp only [witA8, List.mem_singleton] at hf
         subst hf
         exact ⟨fun s => rfl, fun s => rfl⟩,
       by
         intro v hv
         simp [witA8] at hv,
       by
         intro f hf
         simp [witA8] at hf⟩
  · decide

/-- Claim C9 (code_bug): the setter guards use an inverted boolean
condition, so a truthy value that does not satisfy the stage contract is
accepted by both set_visualiser and set_finaliser instead of raising a
TypeError; only a null (falsy) argument is rejected. This contradicts
the docstrings and comments in the source, which require the visualiser
to be a Visualiser and the finaliser to be a Filter. -/
theorem c9_setter_guard_bug :
    acceptedArg (set_visualiser ⟨true, false, false⟩) = true ∧
      acceptedArg (set_finaliser ⟨true, false, false⟩) = true ∧
      acceptedArg (set_visualiser nullArg) = false ∧
      acceptedArg (set_finaliser nullArg) = false := by
  refine ⟨rfl, rfl, rfl, rfl⟩

end Surround
